import Mathlib

/-!
Verification of the syncopa-core reconciliation pipeline against its
natural-language specification.

The definitions below are a shallow embedding of the Go sources:
  * `internal/task`            — the task data model,
  * `internal/scanner/scanner.go` — modes, options, `shouldCopy`, the copy
    batcher (`Add`/`Flush`/`reset`) and the post-snapshot part of `Scan`
    (`enqueueMirrorDeletes`, `enqueueSyncTasks`, `srcPathForKey`),
  * `internal/worker` (report aggregation) — `Report.add`, `markComplete`,
    `Duration`, `AverageSpeedBytes`.

Machine integers are modelled as `Int` (Go's int64 arithmetic never comes
close to overflow in these code paths), byte strings as `String`, instants
and durations as `Int` nanoseconds (`time.Time.After` is `>` on instants,
the zero time is `Option.none`).  The in-memory tar archive a batch carries
is modelled as the list of its members (synthesized header name and size);
the payload bytes of a member are abstracted away, with the member size
taken from the `fs.FileInfo` passed to `Add` (the tar header's size field),
matching `tar.FileInfoHeader`.  Fallible I/O inside `copyBatcher.Add`
(`os.Open`, `tar.FileInfoHeader`, `WriteHeader`, `io.Copy`) is driven by an
explicit outcome parameter so that the error paths of the Go code become
ordinary case splits.  Go map iteration order is unspecified; wherever the
source iterates a map (mirror file deletions) the model iterates the
association list in its given order, which the claims never constrain.
-/

namespace Syncopa

/-- Action of a task (internal/task): copy, delete, or batched copy. -/
inductive Action where
  | copy
  | delete
  | copyBatch
deriving DecidableEq, Repr

/-- A single file within a batched copy request (task.CopyBatchEntry). -/
structure CopyBatchEntry where
  source : String
  destination : String
  size : Int
deriving DecidableEq, Repr

/-- One member of the in-memory tar archive built by the batcher: the
synthesized header name `file-N` and the header size. -/
structure TarMember where
  name : String
  size : Int
deriving DecidableEq, Repr

/-- A unit of work emitted by the scanner (task.Task).  `batchEntries` and
`batchArchive` model the `Batch *CopyBatchPayload` field; they are empty for
plain copy and delete tasks (a nil payload). -/
structure Task where
  action : Action
  src : String := ""
  dst : String := ""
  batchEntries : List CopyBatchEntry := []
  batchArchive : List TarMember := []
deriving DecidableEq, Repr

/-- The slice of `fs.FileInfo` the scanner consults: size in bytes and
modification time (nanoseconds since epoch; `ModTime().After` is `>`). -/
structure FileInfo where
  size : Int
  modTime : Int
deriving DecidableEq, Repr

/-- Reconciliation mode (scanner.Mode). -/
inductive Mode where
  | update
  | mirror
  | sync
deriving DecidableEq, Repr

/-- Batching options (scanner.Options).  `autoTuneBatching` is the flag the
CLI wiring sets on the options before scanning. -/
structure Options where
  batchThreshold : Int := 0
  batchMaxFiles : Int := 0
  batchMaxBytes : Int := 0
  autoTuneBatching : Bool := false
deriving DecidableEq, Repr

/-- scanner.shouldCopy: copy when the destination is absent, sizes differ,
or the source mtime is strictly newer. -/
def shouldCopy (srcInfo : FileInfo) (dstInfo : Option FileInfo) : Bool :=
  match dstInfo with
  | none => true
  | some d =>
    if srcInfo.size ≠ d.size then true
    else decide (srcInfo.modTime > d.modTime)

/-- State of scanner.copyBatcher: options, the buffered tar members, whether
the tar writer has been attached (`tw != nil`), the pending entries and the
running byte total. -/
structure copyBatcher where
  opts : Options
  buf : List TarMember := []
  twSet : Bool := false
  entries : List CopyBatchEntry := []
  totalBytes : Int := 0
deriving DecidableEq, Repr

/-- scanner.newCopyBatcher. -/
def newCopyBatcher (opts : Options) : copyBatcher := { opts := opts }

/-- copyBatcher.enabled: batching is on when the threshold is positive. -/
def copyBatcher.enabled (b : copyBatcher) : Bool :=
  decide (b.opts.batchThreshold > 0)

/-- copyBatcher.canAdd: an entry of `size` bytes may join the current batch. -/
def copyBatcher.canAdd (b : copyBatcher) (size : Int) : Bool :=
  if !b.enabled then false
  else if b.opts.batchMaxFiles > 0 ∧ (b.entries.length : Int) ≥ b.opts.batchMaxFiles then false
  else if b.opts.batchMaxBytes > 0 ∧ b.totalBytes + size > b.opts.batchMaxBytes then false
  else true

/-- copyBatcher.reachedLimits: the current batch is full. -/
def copyBatcher.reachedLimits (b : copyBatcher) : Bool :=
  if !b.enabled then false
  else if b.opts.batchMaxFiles > 0 ∧ (b.entries.length : Int) ≥ b.opts.batchMaxFiles then true
  else if b.opts.batchMaxBytes > 0 ∧ b.totalBytes ≥ b.opts.batchMaxBytes then true
  else false

/-- copyBatcher.reset: drop the pending entries, byte total, buffer and tar
writer (the options are kept). -/
def copyBatcher.reset (b : copyBatcher) : copyBatcher :=
  { b with entries := [], totalBytes := 0, buf := [], twSet := false }

/-- copyBatcher.Flush: emit the pending entries as one CopyBatch task whose
`Src`/`Dst` mirror the first entry, then reset; a flush with no pending
entries emits nothing but still resets.  The in-memory `tw.Close()` cannot
fail in this model (every successful `Add` wrote exactly the announced
number of bytes). -/
def copyBatcher.Flush (b : copyBatcher) : copyBatcher × List Task :=
  if !b.enabled then (b, [])
  else
    match b.entries with
    | [] => (b.reset, [])
    | e :: es =>
      (b.reset,
        [{ action := Action.copyBatch, src := e.source, dst := e.destination,
           batchEntries := e :: es, batchArchive := b.buf }])

/-- Outcome of the fallible I/O steps inside one `Add` call: everything
succeeds, `os.Open` fails, `tar.FileInfoHeader` fails, `tw.WriteHeader`
fails, or `io.Copy` fails. -/
inductive AddOutcome where
  | ok
  | openFail
  | headerFail
  | writeHeaderFail
  | copyFail
deriving DecidableEq, Repr

/-- The error `Add` returns, tagged by the I/O step that failed. -/
inductive AddError where
  | openFailed
  | headerFailed
  | writeHeaderFailed
  | copyFailed
deriving DecidableEq, Repr

/-- The flush-then-immediate-copy path of `Add` (nil info or file above the
threshold). -/
def copyBatcher.flushThenCopy (b : copyBatcher) (src dst : String) :
    copyBatcher × List Task × Option AddError :=
  ((b.Flush).1,
   (b.Flush).2 ++ [{ action := Action.copy, src := src, dst := dst }],
   none)

/-- The conditional flush at the top of the small-file path of `Add`: if the
file no longer fits the current batch, flush first. -/
def copyBatcher.preFlush (b : copyBatcher) (size : Int) : copyBatcher × List Task :=
  if !(b.canAdd size) then b.Flush else (b, [])

/-- `if b.tw == nil { b.tw = tar.NewWriter(&b.buf) }`. -/
def copyBatcher.attachWriter (b : copyBatcher) : copyBatcher :=
  if b.twSet then b else { b with twSet := true }

/-- Append one file to the batch: a tar member named `file-N` (N the
zero-based entry index) plus the corresponding entry and the byte total. -/
def copyBatcher.append (b : copyBatcher) (src dst : String) (size : Int) : copyBatcher :=
  { b with
    buf := b.buf ++ [{ name := "file-" ++ toString b.entries.length, size := size }],
    entries := b.entries ++ [{ source := src, destination := dst, size := size }],
    totalBytes := b.totalBytes + size }

/-- The small-file path of `Add`: optional pre-flush, attach the tar
writer, then the fallible steps in source order (open, header, write
header, copy).  An `os.Open` failure returns the error *without* resetting,
while the three later failures reset the batcher.  On success the file is
appended and the batch is flushed if a limit is now reached. -/
def copyBatcher.addSmall (b : copyBatcher) (src dst : String) (size : Int)
    (oc : AddOutcome) : copyBatcher × List Task × Option AddError :=
  match oc with
  | AddOutcome.openFail =>
    ((b.preFlush size).1.attachWriter, (b.preFlush size).2, some AddError.openFailed)
  | AddOutcome.headerFail =>
    ((b.preFlush size).1.attachWriter.reset, (b.preFlush size).2, some AddError.headerFailed)
  | AddOutcome.writeHeaderFail =>
    ((b.preFlush size).1.attachWriter.reset, (b.preFlush size).2, some AddError.writeHeaderFailed)
  | AddOutcome.copyFail =>
    ((b.preFlush size).1.attachWriter.reset, (b.preFlush size).2, some AddError.copyFailed)
  | AddOutcome.ok =>
    if ((b.preFlush size).1.attachWriter.append src dst size).reachedLimits then
      ((((b.preFlush size).1.attachWriter.append src dst size).Flush).1,
       (b.preFlush size).2 ++ (((b.preFlush size).1.attachWriter.append src dst size).Flush).2,
       none)
    else
      ((b.preFlush size).1.attachWriter.append src dst size, (b.preFlush size).2, none)

/-- copyBatcher.Add, translated branch for branch from scanner.go:
disabled batching emits an immediate copy; a nil info or a file above the
threshold flushes then emits an immediate copy; otherwise the small-file
path runs (`addSmall`).  Returns the new state, the tasks written to the
channel, and the error if any. -/
def copyBatcher.Add (b : copyBatcher) (src dst : String) (info : Option FileInfo)
    (oc : AddOutcome) : copyBatcher × List Task × Option AddError :=
  if !b.enabled then
    (b, [{ action := Action.copy, src := src, dst := dst }], none)
  else
    match info with
    | none => b.flushThenCopy src dst
    | some i =>
      if i.size > b.opts.batchThreshold then b.flushThenCopy src dst
      else b.addSmall src dst i.size oc

/-- One requested `Add` call: arguments plus the I/O outcome. -/
structure AddReq where
  src : String
  dst : String
  info : Option FileInfo
  outcome : AddOutcome
deriving DecidableEq, Repr

/-- Run a sequence of `Add` calls, stopping at the first error (the caller
aborts the pipeline on any error). -/
def copyBatcher.runAdds (b : copyBatcher) :
    List AddReq → copyBatcher × List Task × Option AddError
  | [] => (b, [], none)
  | r :: rs =>
    let step := b.Add r.src r.dst r.info r.outcome
    match step.2.2 with
    | some e => (step.1, step.2.1, some e)
    | none =>
      let rest := step.1.runAdds rs
      (rest.1, step.2.1 ++ rest.2.1, rest.2.2)

/-- All tasks a fresh batcher emits over a sequence of `Add` calls followed
by the final `Flush` (mirroring `Scan`); on an error the scan aborts before
the final flush. -/
def emittedTasks (opts : Options) (reqs : List AddReq) : List Task :=
  let run := (newCopyBatcher opts).runAdds reqs
  match run.2.2 with
  | some _ => run.2.1
  | none => run.2.1 ++ run.1.Flush.2

/-- Sum of the sizes of a list of batch entries. -/
def entriesSizeSum (es : List CopyBatchEntry) : Int :=
  (es.map CopyBatchEntry.size).sum

/-! ### The post-snapshot part of `Scan`

`Scan` builds key-indexed maps of files and directories on both sides
(snapshots), sorts the key slices ascending with `sort.Strings`, then runs
the update loop through the batcher, flushes, and runs the mode-specific
phase.  Snapshots are modelled as association lists from normalized
relative key to file metadata; the Go maps have unique keys, and `lookup`
plays the role of map indexing.  All file-system reads performed by the
batcher during a scan are assumed to succeed (outcome `ok`): the claims
about `Scan` concern the task stream of an error-free run. -/

/-- scanner.fileMeta: the on-disk path plus the walked `fs.FileInfo`. -/
structure fileMeta where
  path : String
  info : FileInfo
deriving DecidableEq, Repr

/-- Lexicographic ≤ on character lists by character code. -/
def charListLeb : List Char → List Char → Bool
  | [], _ => true
  | _ :: _, [] => false
  | a :: as, b :: bs =>
    if a.toNat < b.toNat then true
    else if b.toNat < a.toNat then false
    else charListLeb as bs

/-- Lexicographic ≤ on strings by character code: the order `sort.Strings`
puts the key slices in (Go compares byte-wise; on the ASCII keys of these
claims the two coincide). -/
def strLE (a b : String) : Prop := charListLeb a.data b.data = true

instance : DecidableRel strLE := fun a b =>
  inferInstanceAs (Decidable (charListLeb a.data b.data = true))

instance : IsTotal String strLE := by
  constructor
  intro a b
  show charListLeb a.data b.data = true ∨ charListLeb b.data a.data = true
  generalize a.data = l1
  generalize b.data = l2
  induction l1 generalizing l2 with
  | nil => left; rfl
  | cons x xs ih =>
    cases l2 with
    | nil => right; rfl
    | cons y ys =>
      by_cases hxy : x.toNat < y.toNat
      · left; simp [charListLeb, hxy]
      · by_cases hyx : y.toNat < x.toNat
        · right; simp [charListLeb, hyx]
        · rcases ih ys with h | h
          · left; simp [charListLeb, hxy, hyx, h]
          · right; simp [charListLeb, hxy, hyx, h]

instance : IsTrans String strLE := by
  constructor
  intro a b c hab hbc
  show charListLeb a.data c.data = true
  rw [show strLE a b = (charListLeb a.data b.data = true) from rfl] at hab
  rw [show strLE b c = (charListLeb b.data c.data = true) from rfl] at hbc
  revert hab hbc
  generalize a.data = l1
  generalize b.data = l2
  generalize c.data = l3
  induction l1 generalizing l2 l3 with
  | nil => intro _ _; rfl
  | cons x xs ih =>
    intro hab hbc
    cases l2 with
    | nil => simp [charListLeb] at hab
    | cons y ys =>
      cases l3 with
      | nil => simp [charListLeb] at hbc
      | cons z zs =>
        by_cases hxy : x.toNat < y.toNat
        · by_cases hyz : y.toNat < z.toNat
          · simp [charListLeb]
            omega
          · by_cases hzy : z.toNat < y.toNat
            · simp [charListLeb, hyz, hzy] at hbc
            · simp [charListLeb]
              omega
        · by_cases hyx : y.toNat < x.toNat
          · simp [charListLeb, hxy, hyx] at hab
          · by_cases hyz : y.toNat < z.toNat
            · simp [charListLeb]
              omega
            · by_cases hzy : z.toNat < y.toNat
              · simp [charListLeb, hyz, hzy] at hbc
              · simp [charListLeb, hxy, hyx] at hab
                simp [charListLeb, hyz, hzy] at hbc
                have hxz : ¬ x.toNat < z.toNat := by omega
                have hzx : ¬ z.toNat < x.toNat := by omega
                simp [charListLeb, hxz, hzx]
                exact ih ys zs hab hbc

/-- `filepath.Join` on already-clean paths with a `/` separator. -/
def joinPath (a b : String) : String := a ++ "/" ++ b

/-- The sorted key slice of a snapshot map (`sort.Strings` over the keys). -/
def sortedKeys (files : List (String × fileMeta)) : List String :=
  (files.map Prod.fst).insertionSort strLE

/-- One iteration of the source-to-destination loop of `Scan`: copy when the
key is missing at the destination or `shouldCopy` says so. -/
def updateStep (cleanDst : String) (srcFiles dstFiles : List (String × fileMeta))
    (acc : copyBatcher × List Task) (key : String) : copyBatcher × List Task :=
  match srcFiles.lookup key with
  | none => acc
  | some sm =>
    match dstFiles.lookup key with
    | none =>
      ((acc.1.Add sm.path (joinPath cleanDst key) (some sm.info) AddOutcome.ok).1,
       acc.2 ++ (acc.1.Add sm.path (joinPath cleanDst key) (some sm.info) AddOutcome.ok).2.1)
    | some dm =>
      if shouldCopy sm.info (some dm.info) then
        ((acc.1.Add sm.path (joinPath cleanDst key) (some sm.info) AddOutcome.ok).1,
         acc.2 ++ (acc.1.Add sm.path (joinPath cleanDst key) (some sm.info) AddOutcome.ok).2.1)
      else acc

/-- The source-to-destination loop of `Scan` over the sorted source keys. -/
def updatePhase (cleanDst : String) (srcFiles dstFiles : List (String × fileMeta))
    (b : copyBatcher) : copyBatcher × List Task :=
  (sortedKeys srcFiles).foldl (updateStep cleanDst srcFiles dstFiles) (b, [])

/-- scanner.srcPathForKey: map a normalized key back to a source path,
undoing the `includeDir` prefix. -/
def srcPathForKey (key cleanSrc base : String) (includeDir : Bool) : Option String :=
  if !includeDir || base = "" then some (joinPath cleanSrc key)
  else if key = base then some cleanSrc
  else if (base ++ "/").isPrefixOf key then
    some (joinPath cleanSrc (key.drop (base ++ "/").length))
  else none

/-- Relation ordering strings by descending length (the comparator of the
`sort.Slice` call in `enqueueMirrorDeletes`). -/
def lenGE (a b : String) : Prop := b.length ≤ a.length

instance : DecidableRel lenGE := fun a b => Nat.decLe b.length a.length

instance : IsTotal String lenGE := ⟨fun a b => Nat.le_total b.length a.length⟩

instance : IsTrans String lenGE := ⟨fun _ _ _ hab hbc => Nat.le_trans hbc hab⟩

/-- The directory keys present at the destination but not the source. -/
def missingDirKeys (dstDirs srcDirs : List (String × fileMeta)) : List String :=
  (dstDirs.map Prod.fst).filter (fun k => (srcDirs.lookup k).isNone)

/-- The missing directory keys sorted by descending path length. -/
def sortedMissingDirKeys (dstDirs srcDirs : List (String × fileMeta)) : List String :=
  (missingDirKeys dstDirs srcDirs).insertionSort lenGE

/-- scanner.enqueueMirrorDeletes: delete destination-only files (map order),
then destination-only directories sorted by descending path length. -/
def mirrorDeletes (cleanDst : String)
    (dstFiles dstDirs srcFiles srcDirs : List (String × fileMeta)) : List Task :=
  let fileDels := (dstFiles.filter (fun p => (srcFiles.lookup p.1).isNone)).map
    (fun p => { action := Action.delete, dst := p.2.path : Task })
  let dirDels := (sortedMissingDirKeys dstDirs srcDirs).map
    (fun rel => { action := Action.delete, dst := joinPath cleanDst rel : Task })
  fileDels ++ dirDels

/-- One iteration of the destination-only loop of `enqueueSyncTasks`. -/
def syncDstOnlyStep (cleanSrc base : String) (includeDir : Bool)
    (srcFiles dstFiles : List (String × fileMeta))
    (acc : copyBatcher × List Task) (key : String) : copyBatcher × List Task :=
  match dstFiles.lookup key with
  | none => acc
  | some dm =>
    if (srcFiles.lookup key).isSome then acc
    else
      match srcPathForKey key cleanSrc base includeDir with
      | none => acc
      | some srcPath =>
        ((acc.1.Add dm.path srcPath (some dm.info) AddOutcome.ok).1,
         acc.2 ++ (acc.1.Add dm.path srcPath (some dm.info) AddOutcome.ok).2.1)

/-- One iteration of the shared-but-newer loop of `enqueueSyncTasks`. -/
def syncNewerStep (cleanSrc base : String) (includeDir : Bool)
    (srcFiles dstFiles : List (String × fileMeta))
    (acc : copyBatcher × List Task) (key : String) : copyBatcher × List Task :=
  match srcFiles.lookup key with
  | none => acc
  | some sm =>
    match dstFiles.lookup key with
    | none => acc
    | some dm =>
      if decide (dm.info.modTime > sm.info.modTime) then
        match srcPathForKey key cleanSrc base includeDir with
        | none => acc
        | some srcPath =>
          ((acc.1.Add dm.path srcPath (some dm.info) AddOutcome.ok).1,
           acc.2 ++ (acc.1.Add dm.path srcPath (some dm.info) AddOutcome.ok).2.1)
      else acc

/-- scanner.enqueueSyncTasks: destination-only copies back to the source
(sorted destination keys), then shared-but-newer-on-destination copies
(sorted source keys), then a final flush. -/
def syncTasks (cleanSrc base : String) (includeDir : Bool)
    (srcFiles dstFiles : List (String × fileMeta)) (b : copyBatcher) : List Task :=
  let l1 := (sortedKeys dstFiles).foldl
    (syncDstOnlyStep cleanSrc base includeDir srcFiles dstFiles) (b, [])
  let l2 := (sortedKeys srcFiles).foldl
    (syncNewerStep cleanSrc base includeDir srcFiles dstFiles) (l1.1, [])
  l1.2 ++ l2.2 ++ l2.1.Flush.2

/-- The task stream of `Scan` from the two snapshots on: the update loop
through the batcher, the flush, then the mode-specific phase. -/
def scanFromSnapshots (cleanSrc cleanDst base : String) (includeDir : Bool)
    (srcFiles srcDirs dstFiles dstDirs : List (String × fileMeta))
    (mode : Mode) (opts : Options) : List Task :=
  let up := updatePhase cleanDst srcFiles dstFiles (newCopyBatcher opts)
  let fl := up.1.Flush
  match mode with
  | Mode.update => up.2 ++ fl.2
  | Mode.mirror => up.2 ++ fl.2 ++ mirrorDeletes cleanDst dstFiles dstDirs srcFiles srcDirs
  | Mode.sync => up.2 ++ fl.2 ++ syncTasks cleanSrc base includeDir srcFiles dstFiles fl.1

/-! ### Batch tuner (modelled from the spec) -/

/-- Modelled from the spec: `clamp(v, lo, hi)` used by the batch tuner. -/
def clampInt (v lo hi : Int) : Int := min (max v lo) hi

/-- Modelled from the spec: index of the `p = num/den` percentile on an
ascending-sorted vector of length `n`, `ceil(p*n) - 1` clamped to
`[0, n-1]` (natural subtraction supplies the lower clamp). -/
def percentileIdx (num den n : Nat) : Nat :=
  min (n - 1) ((num * n + den - 1) / den - 1)

/-- Modelled from the spec: the sizes eligible for tuning — non-negative
and at most 512 KiB (the small-file cutoff). -/
def smallSizes (sizes : List Int) : List Int :=
  (sizes.filter (fun s => decide (0 ≤ s))).filter (fun s => decide (s ≤ 524288))

/-- Modelled from the spec: the median of the ascending-sorted small sizes. -/
def p50of (sizes : List Int) : Int :=
  let sorted := (smallSizes sizes).insertionSort (· ≤ ·)
  sorted.getD (percentileIdx 1 2 sorted.length) 0

/-- Modelled from the spec: the 90th percentile of the ascending-sorted
small sizes. -/
def p90of (sizes : List Int) : Int :=
  let sorted := (smallSizes sizes).insertionSort (· ≤ ·)
  sorted.getD (percentileIdx 9 10 sorted.length) 0

/-- Modelled from the spec: the batch tuner `tune(opts, srcFiles)`; its Go
source is not under src/ (only the `Options` struct and the CLI auto-batch
wiring are).  If auto-tuning is off, any knob is manually non-zero, or
fewer than 4 small files exist, `opts` is returned unchanged; otherwise the
threshold, max-files and max-bytes are derived from the small-file size
distribution (steps 3-7 of spec section 4.3; the average is taken with
integer division). -/
def tune (opts : Options) (sizes : List Int) : Options :=
  if !opts.autoTuneBatching then opts
  else if opts.batchThreshold ≠ 0 ∨ opts.batchMaxFiles ≠ 0 ∨ opts.batchMaxBytes ≠ 0 then opts
  else
    let small := smallSizes sizes
    if small.length < 4 then opts
    else
      let avg := small.sum / (small.length : Int)
      let threshold := clampInt (max (max (p90of sizes) (2 * p50of sizes)) 4096) 4096 524288
      let target := clampInt (avg * 64) (max 1048576 (threshold * 4)) 8388608
      let maxFiles := clampInt (target / avg) 8 512
      { opts with
        batchThreshold := threshold,
        batchMaxFiles := maxFiles,
        batchMaxBytes := target }

/-! ### Report aggregation (internal/worker) -/

/-- worker.TaskReport: the outcome of one task. -/
structure TaskReport where
  action : Action
  source : String := ""
  destination : String := ""
  bytes : Int := 0
  hash : String := ""
  startedAt : Int := 0
  duration : Int := 0
  batchEntries : List CopyBatchEntry := []
deriving DecidableEq, Repr

/-- worker.Report: run aggregate.  Go's zero `time.Time` is `none`. -/
structure Report where
  startedAt : Option Int := none
  completedAt : Option Int := none
  totalBytes : Int := 0
  copies : List TaskReport := []
  deletes : List TaskReport := []
deriving DecidableEq, Repr

/-- Report.add: copy-family reports extend the byte total and the copies
list, delete reports extend the deletes list. -/
def Report.add (r : Report) (res : TaskReport) : Report :=
  match res.action with
  | Action.copy =>
    { r with totalBytes := r.totalBytes + res.bytes, copies := r.copies ++ [res] }
  | Action.copyBatch =>
    { r with totalBytes := r.totalBytes + res.bytes, copies := r.copies ++ [res] }
  | Action.delete =>
    { r with deletes := r.deletes ++ [res] }

/-- Ordering of task reports by destination string (the comparator of the
two `sort.Slice` calls in `markComplete`). -/
def destLE (a b : TaskReport) : Prop := strLE a.destination b.destination

instance : DecidableRel destLE := fun a b =>
  inferInstanceAs (Decidable (strLE a.destination b.destination))

instance : IsTotal TaskReport destLE :=
  ⟨fun a b => total_of strLE a.destination b.destination⟩

instance : IsTrans TaskReport destLE :=
  ⟨fun a b c hab hbc =>
    IsTrans.trans (r := strLE) a.destination b.destination c.destination hab hbc⟩

/-- Report.markComplete: stamp the completion time only when unset, and
sort both lists ascending by destination. -/
def Report.markComplete (r : Report) (now : Int) : Report :=
  { r with
    completedAt := if r.completedAt.isNone then some now else r.completedAt,
    copies := r.copies.insertionSort destLE,
    deletes := r.deletes.insertionSort destLE }

/-- Report.Duration in nanoseconds: zero when either instant is unset. -/
def Report.duration (r : Report) : Int :=
  match r.completedAt, r.startedAt with
  | some c, some s => c - s
  | _, _ => 0

/-- Report.AverageSpeedBytes: total bytes divided by the run duration in
seconds, 0 when the duration is non-positive (exact rational arithmetic in
place of Go's float64). -/
def Report.averageSpeedBytes (r : Report) : ℚ :=
  if r.duration ≤ 0 then 0
  else (r.totalBytes : ℚ) / ((r.duration : ℚ) / 1000000000)

/-- Is a report in the copy family (Copy or CopyBatch)? -/
def isCopyFamily (tr : TaskReport) : Bool :=
  decide (tr.action = Action.copy) || decide (tr.action = Action.copyBatch)

/-- Is a report a delete report? -/
def isDeleteReport (tr : TaskReport) : Bool :=
  decide (tr.action = Action.delete)

/-! ### Expected shapes of the scan output, for the ordering claims -/

/-- Does the update loop copy this key: missing at the destination, or
`shouldCopy` holds for the pair of metadata. -/
def copyKeyPred (srcFiles dstFiles : List (String × fileMeta)) (key : String) : Bool :=
  match srcFiles.lookup key with
  | none => false
  | some sm =>
    match dstFiles.lookup key with
    | none => true
    | some dm => shouldCopy sm.info (some dm.info)

/-- The keys the update loop copies, in the order it visits them. -/
def updateCopyKeys (srcFiles dstFiles : List (String × fileMeta)) : List String :=
  (sortedKeys srcFiles).filter (copyKeyPred srcFiles dstFiles)

/-- The Copy task the update loop emits for a key (batching disabled). -/
def updateCopyTask (cleanDst : String) (srcFiles : List (String × fileMeta))
    (key : String) : Task :=
  { action := Action.copy,
    src := ((srcFiles.lookup key).map fileMeta.path).getD "",
    dst := joinPath cleanDst key }

/-- Does the destination-only loop of sync copy this key back: present only
at the destination and mappable back to a source path. -/
def dstOnlyKeyPred (cleanSrc base : String) (includeDir : Bool)
    (srcFiles dstFiles : List (String × fileMeta)) (key : String) : Bool :=
  match dstFiles.lookup key with
  | none => false
  | some _ =>
    !(srcFiles.lookup key).isSome && (srcPathForKey key cleanSrc base includeDir).isSome

/-- Does the shared-but-newer loop of sync copy this key back: present on
both sides, destination mtime strictly newer, and mappable back. -/
def dstNewerKeyPred (cleanSrc base : String) (includeDir : Bool)
    (srcFiles dstFiles : List (String × fileMeta)) (key : String) : Bool :=
  match srcFiles.lookup key with
  | none => false
  | some sm =>
    match dstFiles.lookup key with
    | none => false
    | some dm =>
      decide (dm.info.modTime > sm.info.modTime) &&
        (srcPathForKey key cleanSrc base includeDir).isSome

/-- The destination-only keys sync copies back, in visit order. -/
def dstOnlyKeys (cleanSrc base : String) (includeDir : Bool)
    (srcFiles dstFiles : List (String × fileMeta)) : List String :=
  (sortedKeys dstFiles).filter (dstOnlyKeyPred cleanSrc base includeDir srcFiles dstFiles)

/-- The shared-but-newer keys sync copies back, in visit order. -/
def dstNewerKeys (cleanSrc base : String) (includeDir : Bool)
    (srcFiles dstFiles : List (String × fileMeta)) : List String :=
  (sortedKeys srcFiles).filter (dstNewerKeyPred cleanSrc base includeDir srcFiles dstFiles)

/-- The destination-to-source Copy task sync emits for a key (batching
disabled). -/
def syncBackTask (cleanSrc base : String) (includeDir : Bool)
    (dstFiles : List (String × fileMeta)) (key : String) : Task :=
  { action := Action.copy,
    src := ((dstFiles.lookup key).map fileMeta.path).getD "",
    dst := (srcPathForKey key cleanSrc base includeDir).getD "" }

/-! ### Batcher invariants -/

/-- Invariant of the batcher state between operations: the byte total
tracks the pending entries, the buffered tar members mirror the entries'
sizes, every pending entry fits under the threshold, the entry count never
exceeds a positive max-files, and the byte total exceeds a positive
max-bytes only when at most one entry is pending. -/
structure BatcherInv (b : copyBatcher) : Prop where
  sum_eq : b.totalBytes = entriesSizeSum b.entries
  buf_sizes : b.buf.map TarMember.size = b.entries.map CopyBatchEntry.size
  size_le : ∀ e ∈ b.entries, e.size ≤ b.opts.batchThreshold
  count_le : 0 < b.opts.batchMaxFiles → (b.entries.length : Int) ≤ b.opts.batchMaxFiles
  bytes_le : 0 < b.opts.batchMaxBytes →
    entriesSizeSum b.entries ≤ b.opts.batchMaxBytes ∨ b.entries.length ≤ 1

/-- What holds of every CopyBatch task the batcher emits: non-empty
entries mirrored by the task's top-level source/destination, archive member
sizes matching the entries, every entry under the threshold, the entry
count bounded by a positive max-files, and the payload bounded by a
positive max-bytes except for singleton batches. -/
def EmittedBatchOK (opts : Options) (t : Task) : Prop :=
  t.action = Action.copyBatch →
    (∃ e es, t.batchEntries = e :: es ∧ t.src = e.source ∧ t.dst = e.destination) ∧
    t.batchArchive.map TarMember.size = t.batchEntries.map CopyBatchEntry.size ∧
    (∀ e ∈ t.batchEntries, e.size ≤ opts.batchThreshold) ∧
    (0 < opts.batchMaxFiles → (t.batchEntries.length : Int) ≤ opts.batchMaxFiles) ∧
    (0 < opts.batchMaxBytes →
      entriesSizeSum t.batchEntries ≤ opts.batchMaxBytes ∨ t.batchEntries.length = 1)

/-! ### Concrete fixtures for counterexamples and scenario checks -/

/-- Options of the batch-sizing counterexample: threshold 100, max 10
files, max 10 bytes. -/
def cexSizingOpts : Options :=
  { batchThreshold := 100, batchMaxFiles := 10, batchMaxBytes := 10 }

/-- A single small file of 50 bytes (under the threshold, over max-bytes). -/
def cexSizingReqs : List AddReq :=
  [{ src := "s/a", dst := "d/a", info := some { size := 50, modTime := 0 }, outcome := AddOutcome.ok }]

/-- A batcher with batching enabled and no file/byte caps. -/
def cexErrOpts : Options := { batchThreshold := 10 }

/-- The batcher state after one successful small `Add` under
`cexErrOpts`. -/
def cexErrBatcher : copyBatcher :=
  ((newCopyBatcher cexErrOpts).Add "s/one" "d/one"
    (some { size := 3, modTime := 0 }) AddOutcome.ok).1

/-- The result of a second `Add` whose `os.Open` fails. -/
def cexErrStep : copyBatcher × List Task × Option AddError :=
  cexErrBatcher.Add "s/two" "d/two" (some { size := 4, modTime := 0 }) AddOutcome.openFail

/-- Options of the batch-sizing witness run: threshold 10, max 2 files,
max 100 bytes. -/
def witOpts : Options :=
  { batchThreshold := 10, batchMaxFiles := 2, batchMaxBytes := 100 }

/-- Three successful 4-byte adds for the batch-sizing witness run. -/
def witReqs : List AddReq :=
  [{ src := "s/a", dst := "d/a", info := some { size := 4, modTime := 0 }, outcome := AddOutcome.ok },
   { src := "s/b", dst := "d/b", info := some { size := 4, modTime := 0 }, outcome := AddOutcome.ok },
   { src := "s/c", dst := "d/c", info := some { size := 4, modTime := 0 }, outcome := AddOutcome.ok }]

/-- The first CopyBatch task the witness run emits (full at two entries). -/
def witBatchTask : Task :=
  { action := Action.copyBatch, src := "s/a", dst := "d/a",
    batchEntries := [{ source := "s/a", destination := "d/a", size := 4 },
                     { source := "s/b", destination := "d/b", size := 4 }],
    batchArchive := [{ name := "file-0", size := 4 }, { name := "file-1", size := 4 }] }

/-- Source snapshot of spec scenario 1 (update ordering). -/
def demoSrcFiles : List (String × fileMeta) :=
  [("c.txt", { path := "src/c.txt", info := { size := 5, modTime := 0 } }),
   ("a.txt", { path := "src/a.txt", info := { size := 5, modTime := 0 } }),
   ("b.txt", { path := "src/b.txt", info := { size := 5, modTime := 0 } }),
   ("nested/file.txt", { path := "src/nested/file.txt", info := { size := 15, modTime := 0 } })]

/-- Expected task stream of spec scenario 1. -/
def demoExpected : List Task :=
  [{ action := Action.copy, src := "src/a.txt", dst := "dst/a.txt" },
   { action := Action.copy, src := "src/b.txt", dst := "dst/b.txt" },
   { action := Action.copy, src := "src/c.txt", dst := "dst/c.txt" },
   { action := Action.copy, src := "src/nested/file.txt", dst := "dst/nested/file.txt" }]

/-! ## Helper lemmas: batcher invariants -/

theorem reset_inv (b : copyBatcher) : BatcherInv b.reset := by
  refine ⟨?_, ?_, ?_, ?_, ?_⟩ <;>
    simp [copyBatcher.reset, entriesSizeSum] <;> omega

theorem new_inv (opts : Options) : BatcherInv (newCopyBatcher opts) := by
  refine ⟨?_, ?_, ?_, ?_, ?_⟩ <;>
    simp [newCopyBatcher, entriesSizeSum] <;> omega

theorem flush_fst_opts (b : copyBatcher) : (b.Flush).1.opts = b.opts := by
  unfold copyBatcher.Flush
  split
  · rfl
  · split <;> rfl

theorem flush_inv (b : copyBatcher) (h : BatcherInv b) : BatcherInv (b.Flush).1 := by
  unfold copyBatcher.Flush
  split
  · exact h
  · split
    · exact reset_inv b
    · exact reset_inv b

theorem flush_tasks_ok (b : copyBatcher) (h : BatcherInv b) :
    ∀ t ∈ (b.Flush).2, EmittedBatchOK b.opts t := by
  unfold copyBatcher.Flush
  split
  · intro t ht; simp at ht
  · split
    · intro t ht; simp at ht
    · rename_i e es heq
      intro t ht
      simp only [List.mem_singleton] at ht
      subst ht
      intro _
      refine ⟨⟨e, es, rfl, rfl, rfl⟩, ?_, ?_, ?_, ?_⟩
      · simpa [heq] using h.buf_sizes
      · simpa [heq] using h.size_le
      · intro hp; simpa [heq] using h.count_le hp
      · intro hp
        rcases h.bytes_le hp with hle | hone
        · left; simpa [heq] using hle
        · right; rw [heq] at hone; simp at hone; simp [hone]

theorem canAdd_facts (b : copyBatcher) (size : Int) (h : b.canAdd size = true) :
    (0 < b.opts.batchMaxFiles → (b.entries.length : Int) < b.opts.batchMaxFiles) ∧
    (0 < b.opts.batchMaxBytes → b.totalBytes + size ≤ b.opts.batchMaxBytes) := by
  unfold copyBatcher.canAdd at h
  split at h
  · exact absurd h (by simp)
  · split at h
    · exact absurd h (by simp)
    · split at h
      · exact absurd h (by simp)
      · rename_i h1 h2
        constructor
        · intro hp
          by_contra hc
          exact h1 ⟨hp, by omega⟩
        · intro hp
          by_contra hc
          exact h2 ⟨hp, by omega⟩

theorem flush_fst_entries (b : copyBatcher) (hen : b.enabled = true) :
    (b.Flush).1.entries = [] := by
  unfold copyBatcher.Flush
  rw [hen]
  simp only [Bool.not_true, Bool.false_eq_true, if_false]
  split
  · rfl
  · rfl

theorem flushThenCopy_spec (b : copyBatcher) (src dst : String) (h : BatcherInv b) :
    BatcherInv (b.flushThenCopy src dst).1 ∧
    (b.flushThenCopy src dst).1.opts = b.opts ∧
    ∀ t ∈ (b.flushThenCopy src dst).2.1, EmittedBatchOK b.opts t := by
  refine ⟨flush_inv b h, flush_fst_opts b, ?_⟩
  intro t ht
  rcases List.mem_append.mp ht with hmem | hmem
  · exact flush_tasks_ok b h t hmem
  · simp only [List.mem_singleton] at hmem
    subst hmem
    intro habs; simp at habs

theorem preFlush_inv (b : copyBatcher) (size : Int) (h : BatcherInv b) :
    BatcherInv (b.preFlush size).1 := by
  unfold copyBatcher.preFlush
  split
  · exact flush_inv b h
  · exact h

theorem preFlush_opts (b : copyBatcher) (size : Int) :
    (b.preFlush size).1.opts = b.opts := by
  unfold copyBatcher.preFlush
  split
  · exact flush_fst_opts b
  · rfl

theorem preFlush_tasks_ok (b : copyBatcher) (size : Int) (h : BatcherInv b) :
    ∀ t ∈ (b.preFlush size).2, EmittedBatchOK b.opts t := by
  unfold copyBatcher.preFlush
  split
  · exact flush_tasks_ok b h
  · intro t ht; simp at ht

theorem preFlush_cases (b : copyBatcher) (size : Int) (hen : b.enabled = true) :
    ((b.preFlush size).1 = b ∧ b.canAdd size = true) ∨ (b.preFlush size).1.entries = [] := by
  unfold copyBatcher.preFlush
  by_cases hca : b.canAdd size = true
  · left
    rw [hca]
    exact ⟨rfl, rfl⟩
  · right
    have : (!(b.canAdd size)) = true := by
      simp [Bool.not_eq_true] at hca
      simp [hca]
    rw [this]
    simp only [if_pos]
    exact flush_fst_entries b hen

theorem attachWriter_inv (b : copyBatcher) (h : BatcherInv b) :
    BatcherInv b.attachWriter := by
  unfold copyBatcher.attachWriter
  split
  · exact h
  · exact ⟨h.sum_eq, h.buf_sizes, h.size_le, h.count_le, h.bytes_le⟩

theorem attachWriter_opts (b : copyBatcher) : b.attachWriter.opts = b.opts := by
  unfold copyBatcher.attachWriter
  split
  · rfl
  · rfl

theorem attachWriter_entries (b : copyBatcher) : b.attachWriter.entries = b.entries := by
  unfold copyBatcher.attachWriter
  split
  · rfl
  · rfl

theorem attachWriter_totalBytes (b : copyBatcher) :
    b.attachWriter.totalBytes = b.totalBytes := by
  unfold copyBatcher.attachWriter
  split
  · rfl
  · rfl

theorem append_opts (c : copyBatcher) (src dst : String) (size : Int) :
    (c.append src dst size).opts = c.opts := rfl

theorem append_inv (c : copyBatcher) (src dst : String) (size : Int)
    (h : BatcherInv c) (hsz : size ≤ c.opts.batchThreshold)
    (hfit : ((0 < c.opts.batchMaxFiles → (c.entries.length : Int) < c.opts.batchMaxFiles) ∧
             (0 < c.opts.batchMaxBytes → c.totalBytes + size ≤ c.opts.batchMaxBytes)) ∨
            c.entries = []) :
    BatcherInv (c.append src dst size) := by
  refine ⟨?_, ?_, ?_, ?_, ?_⟩
  · show c.totalBytes + size = entriesSizeSum (c.entries ++ _)
    have := h.sum_eq
    simp [entriesSizeSum] at this ⊢
    omega
  · show (c.buf ++ _).map TarMember.size = (c.entries ++ _).map CopyBatchEntry.size
    simp [h.buf_sizes]
  · intro e he
    rcases List.mem_append.mp he with hmem | hmem
    · exact h.size_le e hmem
    · simp only [List.mem_singleton] at hmem
      subst hmem
      exact hsz
  · intro hp
    rw [append_opts] at hp
    show ((c.entries ++ _).length : Int) ≤ c.opts.batchMaxFiles
    rcases hfit with ⟨hfiles, _⟩ | hempty
    · have := hfiles hp
      simp only [List.length_append, List.length_singleton]
      push_cast
      omega
    · simp [hempty]
      omega
  · intro hp
    rw [append_opts] at hp
    show entriesSizeSum (c.entries ++ _) ≤ c.opts.batchMaxBytes ∨ (c.entries ++ _).length ≤ 1
    rcases hfit with ⟨_, hbytes⟩ | hempty
    · left
      have hle := hbytes hp
      have := h.sum_eq
      simp [entriesSizeSum] at this ⊢
      omega
    · right
      simp [hempty]

theorem reset_opts (b : copyBatcher) : b.reset.opts = b.opts := rfl

theorem addSmall_spec (b : copyBatcher) (src dst : String) (size : Int)
    (oc : AddOutcome) (h : BatcherInv b) (hen : b.enabled = true)
    (hsz : size ≤ b.opts.batchThreshold) :
    BatcherInv (b.addSmall src dst size oc).1 ∧
    (b.addSmall src dst size oc).1.opts = b.opts ∧
    ∀ t ∈ (b.addSmall src dst size oc).2.1, EmittedBatchOK b.opts t := by
  have hpInv : BatcherInv (b.preFlush size).1 := preFlush_inv b size h
  have hpOpts : (b.preFlush size).1.opts = b.opts := preFlush_opts b size
  have hpTasks := preFlush_tasks_ok b size h
  have hwInv : BatcherInv (b.preFlush size).1.attachWriter := attachWriter_inv _ hpInv
  have hwOpts : (b.preFlush size).1.attachWriter.opts = b.opts := by
    rw [attachWriter_opts]; exact hpOpts
  have hfit :
      ((0 < (b.preFlush size).1.attachWriter.opts.batchMaxFiles →
         ((b.preFlush size).1.attachWriter.entries.length : Int) <
           (b.preFlush size).1.attachWriter.opts.batchMaxFiles) ∧
       (0 < (b.preFlush size).1.attachWriter.opts.batchMaxBytes →
         (b.preFlush size).1.attachWriter.totalBytes + size ≤
           (b.preFlush size).1.attachWriter.opts.batchMaxBytes)) ∨
      (b.preFlush size).1.attachWriter.entries = [] := by
    rcases preFlush_cases b size hen with ⟨heq, hca⟩ | hempty
    · left
      have hfacts := canAdd_facts b size hca
      rw [attachWriter_entries, attachWriter_totalBytes, attachWriter_opts, heq]
      exact hfacts
    · right
      rw [attachWriter_entries]
      exact hempty
  have hszw : size ≤ (b.preFlush size).1.attachWriter.opts.batchThreshold := by
    rw [hwOpts]; exact hsz
  have h3Inv : BatcherInv ((b.preFlush size).1.attachWriter.append src dst size) :=
    append_inv _ src dst size hwInv hszw hfit
  have h3Opts : ((b.preFlush size).1.attachWriter.append src dst size).opts = b.opts := by
    rw [append_opts]; exact hwOpts
  cases oc with
  | openFail => exact ⟨hwInv, hwOpts, hpTasks⟩
  | headerFail =>
    exact ⟨reset_inv _, by rw [show (b.addSmall src dst size AddOutcome.headerFail).1.opts =
      (b.preFlush size).1.attachWriter.opts from rfl]; exact hpOpts ▸ attachWriter_opts _, hpTasks⟩
  | writeHeaderFail =>
    exact ⟨reset_inv _, by rw [show (b.addSmall src dst size AddOutcome.writeHeaderFail).1.opts =
      (b.preFlush size).1.attachWriter.opts from rfl]; exact hpOpts ▸ attachWriter_opts _, hpTasks⟩
  | copyFail =>
    exact ⟨reset_inv _, by rw [show (b.addSmall src dst size AddOutcome.copyFail).1.opts =
      (b.preFlush size).1.attachWriter.opts from rfl]; exact hpOpts ▸ attachWriter_opts _, hpTasks⟩
  | ok =>
    by_cases hrl : ((b.preFlush size).1.attachWriter.append src dst size).reachedLimits = true
    · have hred : b.addSmall src dst size AddOutcome.ok =
          ((((b.preFlush size).1.attachWriter.append src dst size).Flush).1,
           (b.preFlush size).2 ++
             (((b.preFlush size).1.attachWriter.append src dst size).Flush).2,
           none) := by
        unfold copyBatcher.addSmall
        rw [if_pos hrl]
      rw [hred]
      refine ⟨flush_inv _ h3Inv, (flush_fst_opts _).trans h3Opts, ?_⟩
      intro t ht
      replace ht : t ∈ (b.preFlush size).2 ++
          (((b.preFlush size).1.attachWriter.append src dst size).Flush).2 := ht
      rcases List.mem_append.mp ht with hmem | hmem
      · exact hpTasks t hmem
      · have := flush_tasks_ok _ h3Inv t hmem
        rwa [h3Opts] at this
    · have hred : b.addSmall src dst size AddOutcome.ok =
          ((b.preFlush size).1.attachWriter.append src dst size, (b.preFlush size).2, none) := by
        unfold copyBatcher.addSmall
        rw [if_neg hrl]
      rw [hred]
      exact ⟨h3Inv, h3Opts, hpTasks⟩

theorem add_spec (b : copyBatcher) (src dst : String) (info : Option FileInfo)
    (oc : AddOutcome) (h : BatcherInv b) :
    BatcherInv (b.Add src dst info oc).1 ∧
    (b.Add src dst info oc).1.opts = b.opts ∧
    ∀ t ∈ (b.Add src dst info oc).2.1, EmittedBatchOK b.opts t := by
  cases hen : b.enabled with
  | false =>
    have hred : b.Add src dst info oc =
        (b, [{ action := Action.copy, src := src, dst := dst }], none) := by
      unfold copyBatcher.Add
      simp [hen]
    rw [hred]
    refine ⟨h, rfl, ?_⟩
    intro t ht
    simp only [List.mem_singleton] at ht
    subst ht
    intro habs; simp at habs
  | true =>
    match info with
    | none =>
      have hred : b.Add src dst none oc = b.flushThenCopy src dst := by
        unfold copyBatcher.Add
        simp [hen]
      rw [hred]
      exact flushThenCopy_spec b src dst h
    | some i =>
      by_cases hth : i.size > b.opts.batchThreshold
      · have hred : b.Add src dst (some i) oc = b.flushThenCopy src dst := by
          unfold copyBatcher.Add
          simp only [hen, Bool.not_true, Bool.false_eq_true, if_false]
          show (if i.size > b.opts.batchThreshold then b.flushThenCopy src dst
            else b.addSmall src dst i.size oc) = b.flushThenCopy src dst
          rw [if_pos hth]
        rw [hred]
        exact flushThenCopy_spec b src dst h
      · have hred : b.Add src dst (some i) oc = b.addSmall src dst i.size oc := by
          unfold copyBatcher.Add
          simp only [hen, Bool.not_true, Bool.false_eq_true, if_false]
          show (if i.size > b.opts.batchThreshold then b.flushThenCopy src dst
            else b.addSmall src dst i.size oc) = b.addSmall src dst i.size oc
          rw [if_neg hth]
        rw [hred]
        exact addSmall_spec b src dst i.size oc h hen (by omega)

theorem runAdds_spec (reqs : List AddReq) :
    ∀ b : copyBatcher, BatcherInv b →
      BatcherInv (b.runAdds reqs).1 ∧
      (b.runAdds reqs).1.opts = b.opts ∧
      ∀ t ∈ (b.runAdds reqs).2.1, EmittedBatchOK b.opts t := by
  induction reqs with
  | nil =>
    intro b h
    refine ⟨h, rfl, ?_⟩
    intro t ht
    simp [copyBatcher.runAdds] at ht
  | cons r rs ih =>
    intro b h
    have hstep := add_spec b r.src r.dst r.info r.outcome h
    unfold copyBatcher.runAdds
    cases herr : (b.Add r.src r.dst r.info r.outcome).2.2 with
    | some e =>
      simp only [herr]
      exact ⟨hstep.1, hstep.2.1, hstep.2.2⟩
    | none =>
      simp only [herr]
      have hrest := ih (b.Add r.src r.dst r.info r.outcome).1 hstep.1
      refine ⟨hrest.1, hrest.2.1.trans hstep.2.1, ?_⟩
      intro t ht
      replace ht : t ∈ (b.Add r.src r.dst r.info r.outcome).2.1 ++
          ((b.Add r.src r.dst r.info r.outcome).1.runAdds rs).2.1 := ht
      rcases List.mem_append.mp ht with hmem | hmem
      · exact hstep.2.2 t hmem
      · have := hrest.2.2 t hmem
        rwa [hstep.2.1] at this

theorem emittedTasks_ok (opts : Options) (reqs : List AddReq) :
    ∀ t ∈ emittedTasks opts reqs, EmittedBatchOK opts t := by
  have hrun := runAdds_spec reqs (newCopyBatcher opts) (new_inv opts)
  have hopts : ((newCopyBatcher opts).runAdds reqs).1.opts = opts := hrun.2.1
  intro t ht
  unfold emittedTasks at ht
  cases herr : ((newCopyBatcher opts).runAdds reqs).2.2 with
  | some e =>
    simp only [herr] at ht
    exact hopts ▸ hrun.2.2 t ht
  | none =>
    simp only [herr] at ht
    rcases List.mem_append.mp ht with hmem | hmem
    · exact hopts ▸ hrun.2.2 t hmem
    · have := flush_tasks_ok _ hrun.1 t hmem
      rwa [hopts] at this

/-! ## Claim C1 -/

/-- C1 counterexample: with threshold 100, max 10 files and max 10 bytes
(all non-zero), a single successful `Add` of a 50-byte file makes the
batcher emit a CopyBatch task whose entries total 50 bytes, exceeding
`BatchMaxBytes = 10`; so not every emitted CopyBatch respects the byte
cap. -/
theorem batch_sizing_counterexample :
    cexSizingOpts.batchThreshold > 0 ∧
    cexSizingOpts.batchMaxFiles > 0 ∧
    cexSizingOpts.batchMaxBytes > 0 ∧
    (emittedTasks cexSizingOpts cexSizingReqs).map Task.action = [Action.copyBatch] ∧
    (emittedTasks cexSizingOpts cexSizingReqs).map
      (fun t => entriesSizeSum t.batchEntries) = [50] ∧
    ¬ (∀ t ∈ emittedTasks cexSizingOpts cexSizingReqs,
        t.action = Action.copyBatch →
          entriesSizeSum t.batchEntries ≤ cexSizingOpts.batchMaxBytes) := by
  decide

/-- C1 (amended): for every sequence of Add calls with batching enabled and
non-zero BatchMaxFiles and BatchMaxBytes, every emitted CopyBatch task has
at most BatchMaxFiles entries, and the sum of its entries' sizes is at most
BatchMaxBytes unless the batch consists of a single entry, whose size may
exceed BatchMaxBytes but never the batch threshold. -/
theorem batch_sizing_amended (opts : Options) (reqs : List AddReq)
    (hthr : 0 < opts.batchThreshold) (hf : 0 < opts.batchMaxFiles)
    (hb : 0 < opts.batchMaxBytes) :
    ∀ t ∈ emittedTasks opts reqs, t.action = Action.copyBatch →
      (t.batchEntries.length : Int) ≤ opts.batchMaxFiles ∧
      (entriesSizeSum t.batchEntries ≤ opts.batchMaxBytes ∨
        (t.batchEntries.length = 1 ∧
          entriesSizeSum t.batchEntries ≤ opts.batchThreshold)) := by
  intro t ht hbatch
  have hok := emittedTasks_ok opts reqs t ht hbatch
  refine ⟨hok.2.2.2.1 hf, ?_⟩
  rcases hok.2.2.2.2 hb with hle | hone
  · exact Or.inl hle
  · right
    refine ⟨hone, ?_⟩
    rcases List.length_eq_one.mp hone with ⟨e, he⟩
    have hmem : e ∈ t.batchEntries := by rw [he]; exact List.mem_singleton_self e
    have := hok.2.2.1 e hmem
    simp [he, entriesSizeSum]
    exact this

/-- C1 witness: the amended bound at the first batch of a concrete run —
threshold 10, max 2 files, max 100 bytes, three successful 4-byte adds. -/
theorem batch_sizing_amended_witness :
    (witBatchTask.batchEntries.length : Int) ≤ witOpts.batchMaxFiles ∧
    (entriesSizeSum witBatchTask.batchEntries ≤ witOpts.batchMaxBytes ∨
      (witBatchTask.batchEntries.length = 1 ∧
        entriesSizeSum witBatchTask.batchEntries ≤ witOpts.batchThreshold)) :=
  batch_sizing_amended witOpts witReqs (by decide) (by decide) (by decide)
    witBatchTask (by decide) (by decide)

/-! ## Claim C2 -/

/-- C2 counterexample: after one successful small `Add`, a second `Add`
whose `os.Open` fails returns the error but leaves the pending entry in
place (the batcher is not reset), and a later `Flush` emits a CopyBatch
carrying the earlier entry — a partial batch. -/
theorem add_error_reset_counterexample :
    cexErrStep.2.2 = some AddError.openFailed ∧
    cexErrStep.1.entries ≠ [] ∧
    cexErrStep.1.entries =
      [{ source := "s/one", destination := "d/one", size := 3 }] ∧
    (cexErrStep.1.Flush).2.map Task.action = [Action.copyBatch] ∧
    (cexErrStep.1.Flush).2.map Task.batchEntries =
      [[{ source := "s/one", destination := "d/one", size := 3 }]] := by
  decide

/-- C2 (amended): every `Add` that returns an I/O error from tar header
construction, header write, or content copy resets the batcher — empty
entries, zero byte total, empty buffer, detached tar writer; an error from
opening the source file is returned without this reset (see the
counterexample). -/
theorem add_error_reset_amended (b : copyBatcher) (src dst : String)
    (info : Option FileInfo) (oc : AddOutcome) (e : AddError)
    (herr : (b.Add src dst info oc).2.2 = some e)
    (hne : e ≠ AddError.openFailed) :
    (b.Add src dst info oc).1.entries = [] ∧
    (b.Add src dst info oc).1.totalBytes = 0 ∧
    (b.Add src dst info oc).1.buf = [] ∧
    (b.Add src dst info oc).1.twSet = false := by
  cases hen : b.enabled with
  | false =>
    have hred : b.Add src dst info oc =
        (b, [{ action := Action.copy, src := src, dst := dst }], none) := by
      unfold copyBatcher.Add
      simp [hen]
    rw [hred] at herr
    simp at herr
  | true =>
    match info with
    | none =>
      have hred : b.Add src dst none oc = b.flushThenCopy src dst := by
        unfold copyBatcher.Add
        simp [hen]
      rw [hred] at herr
      simp [copyBatcher.flushThenCopy] at herr
    | some i =>
      by_cases hth : i.size > b.opts.batchThreshold
      · have hred : b.Add src dst (some i) oc = b.flushThenCopy src dst := by
          unfold copyBatcher.Add
          simp only [hen, Bool.not_true, Bool.false_eq_true, if_false]
          show (if i.size > b.opts.batchThreshold then b.flushThenCopy src dst
            else b.addSmall src dst i.size oc) = b.flushThenCopy src dst
          rw [if_pos hth]
        rw [hred] at herr
        simp [copyBatcher.flushThenCopy] at herr
      · have hred : b.Add src dst (some i) oc = b.addSmall src dst i.size oc := by
          unfold copyBatcher.Add
          simp only [hen, Bool.not_true, Bool.false_eq_true, if_false]
          show (if i.size > b.opts.batchThreshold then b.flushThenCopy src dst
            else b.addSmall src dst i.size oc) = b.addSmall src dst i.size oc
          rw [if_neg hth]
        rw [hred] at herr ⊢
        cases oc with
        | ok =>
          by_cases hrl :
              ((b.preFlush i.size).1.attachWriter.append src dst i.size).reachedLimits = true
          · have hred2 : b.addSmall src dst i.size AddOutcome.ok =
                ((((b.preFlush i.size).1.attachWriter.append src dst i.size).Flush).1,
                 (b.preFlush i.size).2 ++
                   (((b.preFlush i.size).1.attachWriter.append src dst i.size).Flush).2,
                 none) := by
              unfold copyBatcher.addSmall
              rw [if_pos hrl]
            rw [hred2] at herr
            simp at herr
          · have hred2 : b.addSmall src dst i.size AddOutcome.ok =
                ((b.preFlush i.size).1.attachWriter.append src dst i.size,
                 (b.preFlush i.size).2, none) := by
              unfold copyBatcher.addSmall
              rw [if_neg hrl]
            rw [hred2] at herr
            simp at herr
        | openFail =>
          unfold copyBatcher.addSmall at herr
          simp at herr
          exact absurd herr.symm hne
        | headerFail => exact ⟨rfl, rfl, rfl, rfl⟩
        | writeHeaderFail => exact ⟨rfl, rfl, rfl, rfl⟩
        | copyFail => exact ⟨rfl, rfl, rfl, rfl⟩

/-- C2 witness: the amended reset at a concrete input — an `Add` whose
`io.Copy` fails leaves a fully reset batcher. -/
theorem add_error_reset_amended_witness :
    (((newCopyBatcher { batchThreshold := 10 }).Add "s/x" "d/x"
        (some { size := 4, modTime := 0 }) AddOutcome.copyFail).1.entries = [] ∧
     ((newCopyBatcher { batchThreshold := 10 }).Add "s/x" "d/x"
        (some { size := 4, modTime := 0 }) AddOutcome.copyFail).1.totalBytes = 0 ∧
     ((newCopyBatcher { batchThreshold := 10 }).Add "s/x" "d/x"
        (some { size := 4, modTime := 0 }) AddOutcome.copyFail).1.buf = [] ∧
     ((newCopyBatcher { batchThreshold := 10 }).Add "s/x" "d/x"
        (some { size := 4, modTime := 0 }) AddOutcome.copyFail).1.twSet = false) :=
  add_error_reset_amended _ "s/x" "d/x" _ _ AddError.copyFailed (by decide) (by decide)

/-! ## Claim C4 -/

/-- C4: files with size strictly greater than the batch threshold are never
members of any emitted batch (neither as entries nor as archive members),
and an `Add` of such a file first flushes the in-progress batch and then
emits the immediate Copy task. -/
theorem no_batch_fallthrough :
    (∀ (opts : Options) (reqs : List AddReq), ∀ t ∈ emittedTasks opts reqs,
      t.action = Action.copyBatch →
        (∀ e ∈ t.batchEntries, e.size ≤ opts.batchThreshold) ∧
        (∀ m ∈ t.batchArchive, m.size ≤ opts.batchThreshold)) ∧
    (∀ (b : copyBatcher) (src dst : String) (i : FileInfo) (oc : AddOutcome),
      b.enabled = true → i.size > b.opts.batchThreshold →
      b.Add src dst (some i) oc =
        ((b.Flush).1,
         (b.Flush).2 ++ [{ action := Action.copy, src := src, dst := dst }],
         none)) := by
  constructor
  · intro opts reqs t ht hbatch
    have hok := emittedTasks_ok opts reqs t ht hbatch
    refine ⟨hok.2.2.1, ?_⟩
    intro m hm
    have hsizes : t.batchArchive.map TarMember.size = t.batchEntries.map CopyBatchEntry.size :=
      hok.2.1
    have hmem : m.size ∈ t.batchEntries.map CopyBatchEntry.size := by
      rw [← hsizes]
      exact List.mem_map_of_mem TarMember.size hm
    rcases List.mem_map.mp hmem with ⟨e, hemem, heq⟩
    rw [← heq]
    exact hok.2.2.1 e hemem
  · intro b src dst i oc hen hth
    have hred : b.Add src dst (some i) oc = b.flushThenCopy src dst := by
      unfold copyBatcher.Add
      simp only [hen, Bool.not_true, Bool.false_eq_true, if_false]
      show (if i.size > b.opts.batchThreshold then b.flushThenCopy src dst
        else b.addSmall src dst i.size oc) = b.flushThenCopy src dst
      rw [if_pos hth]
    exact hred

/-- C4 witness: the large-file equation at a concrete batcher holding one
pending entry, fed a 50-byte file over the 10-byte threshold. -/
theorem no_batch_fallthrough_witness :
    cexErrBatcher.Add "s/big" "d/big" (some { size := 50, modTime := 0 }) AddOutcome.ok =
      ((cexErrBatcher.Flush).1,
       (cexErrBatcher.Flush).2 ++
         [{ action := Action.copy, src := "s/big", dst := "d/big" }],
       none) :=
  no_batch_fallthrough.2 cexErrBatcher "s/big" "d/big" _ AddOutcome.ok
    (by decide) (by decide)

/-! ## Claim C10 -/

/-- C10: every CopyBatch task the batcher emits has a non-empty entries
list whose head supplies the task's top-level Src and Dst, and a `Flush`
with zero pending entries emits no task while still resetting the internal
state. -/
theorem flush_batch_shape :
    (∀ (opts : Options) (reqs : List AddReq), ∀ t ∈ emittedTasks opts reqs,
      t.action = Action.copyBatch →
        ∃ e es, t.batchEntries = e :: es ∧ t.src = e.source ∧ t.dst = e.destination) ∧
    (∀ b : copyBatcher, b.enabled = true → b.entries = [] →
      b.Flush = (b.reset, [])) := by
  constructor
  · intro opts reqs t ht hbatch
    exact (emittedTasks_ok opts reqs t ht hbatch).1
  · intro b hen hempty
    unfold copyBatcher.Flush
    rw [hempty]
    simp [hen]

/-- C10 witness: flushing a fresh enabled batcher (zero pending entries)
emits nothing and resets. -/
theorem flush_batch_shape_witness :
    (newCopyBatcher { batchThreshold := 10 }).Flush =
      ((newCopyBatcher { batchThreshold := 10 }).reset, []) :=
  flush_batch_shape.2 (newCopyBatcher { batchThreshold := 10 }) (by decide) rfl

/-! ## Claim C8 -/

/-- C8: `shouldCopy` returns true exactly when the destination info is
absent, the sizes differ, or the source mtime is strictly greater than the
destination mtime; equal sizes with equal mtimes never trigger a copy. -/
theorem shouldCopy_spec :
    (∀ (s : FileInfo) (d : Option FileInfo),
      shouldCopy s d = true ↔
        d = none ∨ ∃ dm, d = some dm ∧ (s.size ≠ dm.size ∨ s.modTime > dm.modTime)) ∧
    (∀ sz mt : Int,
      shouldCopy { size := sz, modTime := mt } (some { size := sz, modTime := mt }) = false) := by
  constructor
  · intro s d
    match d with
    | none => simp [shouldCopy]
    | some dm =>
      by_cases hsz : s.size = dm.size
      · simp [shouldCopy, hsz]
      · simp [shouldCopy, hsz]
  · intro sz mt
    simp [shouldCopy]

/-! ## Claim C3 -/

/-- C3 (spec-modelled): the tuner returns `opts` unchanged when auto-tuning
is off, when any of threshold/max-files/max-bytes is manually non-zero, or
when fewer than 4 small files (non-negative size at most 512 KiB) exist;
otherwise the resulting threshold is clamp(max(p90, 2*p50, 4 KiB), 4 KiB,
512 KiB) over the ascending-sorted small-file sizes. -/
theorem tune_autotune_spec (opts : Options) (sizes : List Int) :
    (opts.autoTuneBatching = false → tune opts sizes = opts) ∧
    (opts.batchThreshold ≠ 0 ∨ opts.batchMaxFiles ≠ 0 ∨ opts.batchMaxBytes ≠ 0 →
      tune opts sizes = opts) ∧
    ((smallSizes sizes).length < 4 → tune opts sizes = opts) ∧
    (opts.autoTuneBatching = true → opts.batchThreshold = 0 → opts.batchMaxFiles = 0 →
      opts.batchMaxBytes = 0 → 4 ≤ (smallSizes sizes).length →
      (tune opts sizes).batchThreshold =
        clampInt (max (max (p90of sizes) (2 * p50of sizes)) 4096) 4096 524288) := by
  refine ⟨?_, ?_, ?_, ?_⟩
  · intro hoff
    unfold tune
    simp [hoff]
  · intro hman
    unfold tune
    by_cases hat : opts.autoTuneBatching
    · simp [hat, hman]
    · simp [hat]
  · intro hfew
    unfold tune
    by_cases hat : opts.autoTuneBatching
    · by_cases hman : opts.batchThreshold ≠ 0 ∨ opts.batchMaxFiles ≠ 0 ∨ opts.batchMaxBytes ≠ 0
      · simp [hat, hman]
      · simp [hat, hman, hfew]
    · simp [hat]
  · intro hat hthr hmf hmb hn
    unfold tune
    have hman : ¬ (opts.batchThreshold ≠ 0 ∨ opts.batchMaxFiles ≠ 0 ∨ opts.batchMaxBytes ≠ 0) := by
      simp [hthr, hmf, hmb]
    have hfew : ¬ ((smallSizes sizes).length < 4) := by omega
    simp [hat, hman, hfew]

/-- C3 witness: four small files of sizes 1000..4000 with auto-tuning on
and all knobs zero produce the spec threshold. -/
theorem tune_autotune_spec_witness :
    (tune { autoTuneBatching := true } [1000, 2000, 3000, 4000]).batchThreshold =
      clampInt (max (max (p90of [1000, 2000, 3000, 4000])
        (2 * p50of [1000, 2000, 3000, 4000])) 4096) 4096 524288 :=
  (tune_autotune_spec { autoTuneBatching := true } [1000, 2000, 3000, 4000]).2.2.2
    rfl rfl rfl rfl (by decide)

/-! ## Claim C9 -/

theorem report_add_foldl (rs : List TaskReport) :
    ∀ r0 : Report, rs.foldl Report.add r0 =
      { r0 with
        totalBytes := r0.totalBytes + ((rs.filter isCopyFamily).map TaskReport.bytes).sum,
        copies := r0.copies ++ rs.filter isCopyFamily,
        deletes := r0.deletes ++ rs.filter isDeleteReport } := by
  induction rs with
  | nil =>
    intro r0
    cases r0
    simp
  | cons tr rs ih =>
    intro r0
    rw [List.foldl_cons, ih]
    cases htr : tr.action with
    | copy =>
      have hfam : isCopyFamily tr = true := by simp [isCopyFamily, htr]
      have hdel : isDeleteReport tr = false := by simp [isDeleteReport, htr]
      simp [Report.add, htr, List.filter_cons, hfam, hdel]
      ring
    | copyBatch =>
      have hfam : isCopyFamily tr = true := by simp [isCopyFamily, htr]
      have hdel : isDeleteReport tr = false := by simp [isDeleteReport, htr]
      simp [Report.add, htr, List.filter_cons, hfam, hdel]
      ring
    | delete =>
      have hfam : isCopyFamily tr = false := by simp [isCopyFamily, htr]
      have hdel : isDeleteReport tr = true := by simp [isDeleteReport, htr]
      simp [Report.add, htr, List.filter_cons, hfam, hdel, List.append_assoc]

/-- C9: folding task reports into an empty report accumulates the byte
counts of the copy-family reports into `totalBytes` and appends them to the
copies list while delete reports go to the deletes list; `markComplete`
stamps the completion time only when it is unset and sorts both lists
ascending by destination; the average speed is `totalBytes` divided by the
run duration in seconds, and 0 when the duration is non-positive. -/
theorem report_aggregation_spec (rs : List TaskReport) (start : Option Int) (now : Int) :
    ((rs.foldl Report.add { startedAt := start }).totalBytes =
      ((rs.filter isCopyFamily).map TaskReport.bytes).sum ∧
     (rs.foldl Report.add { startedAt := start }).copies = rs.filter isCopyFamily ∧
     (rs.foldl Report.add { startedAt := start }).deletes = rs.filter isDeleteReport) ∧
    (∀ r : Report, r.completedAt = none → (r.markComplete now).completedAt = some now) ∧
    (∀ (r : Report) (c : Int), r.completedAt = some c →
      (r.markComplete now).completedAt = some c) ∧
    (∀ r : Report,
      List.Sorted destLE (r.markComplete now).copies ∧
      (r.markComplete now).copies.Perm r.copies ∧
      List.Sorted destLE (r.markComplete now).deletes ∧
      (r.markComplete now).deletes.Perm r.deletes) ∧
    (∀ r : Report, r.duration ≤ 0 → r.averageSpeedBytes = 0) ∧
    (∀ r : Report, 0 < r.duration →
      r.averageSpeedBytes = (r.totalBytes : ℚ) / ((r.duration : ℚ) / 1000000000)) := by
  refine ⟨?_, ?_, ?_, ?_, ?_, ?_⟩
  · rw [report_add_foldl rs { startedAt := start }]
    refine ⟨by simp, by simp, by simp⟩
  · intro r hnone
    simp [Report.markComplete, hnone]
  · intro r c hsome
    simp [Report.markComplete, hsome]
  · intro r
    exact ⟨List.sorted_insertionSort destLE r.copies,
           List.perm_insertionSort destLE r.copies,
           List.sorted_insertionSort destLE r.deletes,
           List.perm_insertionSort destLE r.deletes⟩
  · intro r hle
    unfold Report.averageSpeedBytes
    rw [if_pos hle]
  · intro r hpos
    unfold Report.averageSpeedBytes
    rw [if_neg (by omega)]

/-- C9 witness: the aggregation equalities at a concrete report stream and
the completion/average behaviours at concrete reports. -/
theorem report_aggregation_spec_witness :
    (([{ action := Action.copy, destination := "b", bytes := 4 },
       { action := Action.delete, destination := "a" },
       { action := Action.copyBatch, destination := "a", bytes := 3 }] :
        List TaskReport).foldl Report.add { startedAt := some 0 }).totalBytes =
      (((([{ action := Action.copy, destination := "b", bytes := 4 },
           { action := Action.delete, destination := "a" },
           { action := Action.copyBatch, destination := "a", bytes := 3 }] :
            List TaskReport)).filter isCopyFamily).map TaskReport.bytes).sum ∧
    (({ startedAt := some 0, completedAt := none : Report }.markComplete 5).completedAt =
      some 5) ∧
    (({ startedAt := some 0, completedAt := some 3 : Report }.markComplete 5).completedAt =
      some 3) ∧
    ({ startedAt := some 0, completedAt := some 0, totalBytes := 7 : Report }.averageSpeedBytes = 0) :=
  ⟨(report_aggregation_spec _ (some 0) 5).1.1,
   (report_aggregation_spec [] (some 0) 5).2.1 _ rfl,
   (report_aggregation_spec [] (some 0) 5).2.2.1 _ 3 rfl,
   (report_aggregation_spec [] (some 0) 5).2.2.2.2.1 _ (by decide)⟩

/-! ## Helper lemmas: the scan loops with batching disabled -/

theorem add_disabled (b : copyBatcher) (src dst : String) (info : Option FileInfo)
    (oc : AddOutcome) (h : b.enabled = false) :
    b.Add src dst info oc =
      (b, [{ action := Action.copy, src := src, dst := dst }], none) := by
  unfold copyBatcher.Add
  simp [h]

theorem flush_disabled (b : copyBatcher) (h : b.enabled = false) :
    b.Flush = (b, []) := by
  unfold copyBatcher.Flush
  simp [h]

theorem newCopyBatcher_disabled (opts : Options) (hdis : opts.batchThreshold ≤ 0) :
    (newCopyBatcher opts).enabled = false := by
  simp [newCopyBatcher, copyBatcher.enabled]
  omega

theorem updateStep_disabled (cleanDst : String)
    (srcFiles dstFiles : List (String × fileMeta)) (b : copyBatcher)
    (ts : List Task) (key : String) (h : b.enabled = false) :
    updateStep cleanDst srcFiles dstFiles (b, ts) key =
      (b, ts ++ (if copyKeyPred srcFiles dstFiles key then
        [updateCopyTask cleanDst srcFiles key] else [])) := by
  unfold updateStep copyKeyPred updateCopyTask
  cases hlk : srcFiles.lookup key with
  | none => simp
  | some sm =>
    cases hdk : dstFiles.lookup key with
    | none =>
      simp [add_disabled _ _ _ _ _ h, hlk]
    | some dm =>
      by_cases hsc : shouldCopy sm.info (some dm.info) = true
      · simp [hsc, add_disabled _ _ _ _ _ h, hlk]
      · simp [hsc]

theorem updateFold_disabled (cleanDst : String)
    (srcFiles dstFiles : List (String × fileMeta)) (keys : List String) :
    ∀ (b : copyBatcher) (ts : List Task), b.enabled = false →
      keys.foldl (updateStep cleanDst srcFiles dstFiles) (b, ts) =
        (b, ts ++ (keys.filter (copyKeyPred srcFiles dstFiles)).map
          (updateCopyTask cleanDst srcFiles)) := by
  induction keys with
  | nil => intro b ts h; simp
  | cons k ks ih =>
    intro b ts h
    rw [List.foldl_cons, updateStep_disabled _ _ _ _ _ _ h, ih _ _ h]
    by_cases hp : copyKeyPred srcFiles dstFiles k = true
    · simp [List.filter_cons, hp]
    · simp [List.filter_cons, hp]

theorem updatePhase_disabled (cleanDst : String)
    (srcFiles dstFiles : List (String × fileMeta)) (b : copyBatcher)
    (h : b.enabled = false) :
    updatePhase cleanDst srcFiles dstFiles b =
      (b, (updateCopyKeys srcFiles dstFiles).map (updateCopyTask cleanDst srcFiles)) := by
  unfold updatePhase updateCopyKeys
  rw [updateFold_disabled _ _ _ _ _ _ h]
  simp

theorem syncDstOnlyStep_disabled (cleanSrc base : String) (includeDir : Bool)
    (srcFiles dstFiles : List (String × fileMeta)) (b : copyBatcher)
    (ts : List Task) (key : String) (h : b.enabled = false) :
    syncDstOnlyStep cleanSrc base includeDir srcFiles dstFiles (b, ts) key =
      (b, ts ++ (if dstOnlyKeyPred cleanSrc base includeDir srcFiles dstFiles key then
        [syncBackTask cleanSrc base includeDir dstFiles key] else [])) := by
  unfold syncDstOnlyStep dstOnlyKeyPred syncBackTask
  cases hdk : dstFiles.lookup key with
  | none => simp
  | some dm =>
    by_cases hsrc : (srcFiles.lookup key).isSome
    · simp [hsrc]
    · cases hsp : srcPathForKey key cleanSrc base includeDir with
      | none => simp [hsrc, hsp]
      | some srcPath =>
        simp [hsrc, hsp, add_disabled _ _ _ _ _ h, hdk]

theorem syncDstOnlyFold_disabled (cleanSrc base : String) (includeDir : Bool)
    (srcFiles dstFiles : List (String × fileMeta)) (keys : List String) :
    ∀ (b : copyBatcher) (ts : List Task), b.enabled = false →
      keys.foldl (syncDstOnlyStep cleanSrc base includeDir srcFiles dstFiles) (b, ts) =
        (b, ts ++ (keys.filter (dstOnlyKeyPred cleanSrc base includeDir srcFiles dstFiles)).map
          (syncBackTask cleanSrc base includeDir dstFiles)) := by
  induction keys with
  | nil => intro b ts h; simp
  | cons k ks ih =>
    intro b ts h
    rw [List.foldl_cons, syncDstOnlyStep_disabled _ _ _ _ _ _ _ _ h, ih _ _ h]
    by_cases hp : dstOnlyKeyPred cleanSrc base includeDir srcFiles dstFiles k = true
    · simp [List.filter_cons, hp]
    · simp [List.filter_cons, hp]

theorem syncNewerStep_disabled (cleanSrc base : String) (includeDir : Bool)
    (srcFiles dstFiles : List (String × fileMeta)) (b : copyBatcher)
    (ts : List Task) (key : String) (h : b.enabled = false) :
    syncNewerStep cleanSrc base includeDir srcFiles dstFiles (b, ts) key =
      (b, ts ++ (if dstNewerKeyPred cleanSrc base includeDir srcFiles dstFiles key then
        [syncBackTask cleanSrc base includeDir dstFiles key] else [])) := by
  unfold syncNewerStep dstNewerKeyPred syncBackTask
  cases hlk : srcFiles.lookup key with
  | none => simp
  | some sm =>
    cases hdk : dstFiles.lookup key with
    | none => simp
    | some dm =>
      by_cases hmt : decide (dm.info.modTime > sm.info.modTime) = true
      · cases hsp : srcPathForKey key cleanSrc base includeDir with
        | none => simp [hmt, hsp]
        | some srcPath =>
          simp [hmt, hsp, add_disabled _ _ _ _ _ h, hdk]
      · simp [hmt]

theorem syncNewerFold_disabled (cleanSrc base : String) (includeDir : Bool)
    (srcFiles dstFiles : List (String × fileMeta)) (keys : List String) :
    ∀ (b : copyBatcher) (ts : List Task), b.enabled = false →
      keys.foldl (syncNewerStep cleanSrc base includeDir srcFiles dstFiles) (b, ts) =
        (b, ts ++ (keys.filter (dstNewerKeyPred cleanSrc base includeDir srcFiles dstFiles)).map
          (syncBackTask cleanSrc base includeDir dstFiles)) := by
  induction keys with
  | nil => intro b ts h; simp
  | cons k ks ih =>
    intro b ts h
    rw [List.foldl_cons, syncNewerStep_disabled _ _ _ _ _ _ _ _ h, ih _ _ h]
    by_cases hp : dstNewerKeyPred cleanSrc base includeDir srcFiles dstFiles k = true
    · simp [List.filter_cons, hp]
    · simp [List.filter_cons, hp]

theorem syncTasks_disabled (cleanSrc base : String) (includeDir : Bool)
    (srcFiles dstFiles : List (String × fileMeta)) (b : copyBatcher)
    (h : b.enabled = false) :
    syncTasks cleanSrc base includeDir srcFiles dstFiles b =
      (dstOnlyKeys cleanSrc base includeDir srcFiles dstFiles).map
        (syncBackTask cleanSrc base includeDir dstFiles) ++
      (dstNewerKeys cleanSrc base includeDir srcFiles dstFiles).map
        (syncBackTask cleanSrc base includeDir dstFiles) := by
  unfold syncTasks dstOnlyKeys dstNewerKeys
  simp only [syncDstOnlyFold_disabled _ _ _ _ _ _ _ _ h,
             syncNewerFold_disabled _ _ _ _ _ _ _ _ h,
             flush_disabled _ h]
  simp

theorem scan_update_disabled_eq (cleanSrc cleanDst base : String) (includeDir : Bool)
    (srcFiles srcDirs dstFiles dstDirs : List (String × fileMeta)) (opts : Options)
    (hdis : opts.batchThreshold ≤ 0) :
    scanFromSnapshots cleanSrc cleanDst base includeDir srcFiles srcDirs dstFiles dstDirs
        Mode.update opts =
      (updateCopyKeys srcFiles dstFiles).map (updateCopyTask cleanDst srcFiles) := by
  have hb := newCopyBatcher_disabled opts hdis
  unfold scanFromSnapshots
  simp only [updatePhase_disabled _ _ _ _ hb, flush_disabled _ hb]
  simp

/-! ## Claim C5 -/

/-- C5: with batching disabled, the update phase of Scan emits exactly the
Copy tasks of the copied keys in the order of the ascending-sorted source
key slice, and that key sequence is sorted in lexicographic ascending
order; on spec scenario 1 (source keys c.txt, a.txt, b.txt,
nested/file.txt against an empty destination) the output is exactly four
Copy tasks ordered a.txt, b.txt, c.txt, nested/file.txt. -/
theorem scan_update_lex_order (cleanSrc cleanDst base : String) (includeDir : Bool)
    (srcFiles srcDirs dstFiles dstDirs : List (String × fileMeta)) (opts : Options)
    (hdis : opts.batchThreshold ≤ 0) :
    (scanFromSnapshots cleanSrc cleanDst base includeDir srcFiles srcDirs dstFiles dstDirs
        Mode.update opts =
      (updateCopyKeys srcFiles dstFiles).map (updateCopyTask cleanDst srcFiles)) ∧
    List.Sorted strLE (updateCopyKeys srcFiles dstFiles) ∧
    scanFromSnapshots "src" "dst" "" false demoSrcFiles [] [] [] Mode.update {} =
      demoExpected := by
  refine ⟨scan_update_disabled_eq _ _ _ _ _ _ _ _ _ hdis, ?_, by decide⟩
  exact (List.sorted_insertionSort strLE _).filter _

/-- C5 witness: the theorem at spec scenario 1's snapshots with the default
(batching-disabled) options. -/
theorem scan_update_lex_order_witness :
    (scanFromSnapshots "src" "dst" "" false demoSrcFiles [] [] [] Mode.update {} =
      (updateCopyKeys demoSrcFiles []).map (updateCopyTask "dst" demoSrcFiles)) ∧
    List.Sorted strLE (updateCopyKeys demoSrcFiles []) ∧
    scanFromSnapshots "src" "dst" "" false demoSrcFiles [] [] [] Mode.update {} =
      demoExpected :=
  scan_update_lex_order "src" "dst" "" false demoSrcFiles [] [] [] {} (by decide)

/-! ## Claim C6 -/

theorem scan_sync_disabled_eq (cleanSrc cleanDst base : String) (includeDir : Bool)
    (srcFiles srcDirs dstFiles dstDirs : List (String × fileMeta)) (opts : Options)
    (hdis : opts.batchThreshold ≤ 0) :
    scanFromSnapshots cleanSrc cleanDst base includeDir srcFiles srcDirs dstFiles dstDirs
        Mode.sync opts =
      (updateCopyKeys srcFiles dstFiles).map (updateCopyTask cleanDst srcFiles) ++
      ((dstOnlyKeys cleanSrc base includeDir srcFiles dstFiles).map
        (syncBackTask cleanSrc base includeDir dstFiles) ++
       (dstNewerKeys cleanSrc base includeDir srcFiles dstFiles).map
        (syncBackTask cleanSrc base includeDir dstFiles)) := by
  have hb := newCopyBatcher_disabled opts hdis
  unfold scanFromSnapshots
  simp only [updatePhase_disabled _ _ _ _ hb, flush_disabled _ hb,
             syncTasks_disabled _ _ _ _ _ _ hb]
  simp

/-- C6: with batching disabled, Scan in Sync mode emits the
source-to-destination copies, then one destination-to-source copy per
destination-only key, then one per shared key whose destination mtime is
strictly newer; the destination-only group precedes the shared-but-newer
group, each group's keys are in lexicographic ascending order, and no
Delete task is ever emitted. -/
theorem scan_sync_order (cleanSrc cleanDst base : String) (includeDir : Bool)
    (srcFiles srcDirs dstFiles dstDirs : List (String × fileMeta)) (opts : Options)
    (hdis : opts.batchThreshold ≤ 0) :
    (scanFromSnapshots cleanSrc cleanDst base includeDir srcFiles srcDirs dstFiles dstDirs
        Mode.sync opts =
      (updateCopyKeys srcFiles dstFiles).map (updateCopyTask cleanDst srcFiles) ++
      ((dstOnlyKeys cleanSrc base includeDir srcFiles dstFiles).map
        (syncBackTask cleanSrc base includeDir dstFiles) ++
       (dstNewerKeys cleanSrc base includeDir srcFiles dstFiles).map
        (syncBackTask cleanSrc base includeDir dstFiles))) ∧
    List.Sorted strLE (dstOnlyKeys cleanSrc base includeDir srcFiles dstFiles) ∧
    List.Sorted strLE (dstNewerKeys cleanSrc base includeDir srcFiles dstFiles) ∧
    (∀ t ∈ scanFromSnapshots cleanSrc cleanDst base includeDir srcFiles srcDirs dstFiles
        dstDirs Mode.sync opts, t.action ≠ Action.delete) := by
  refine ⟨scan_sync_disabled_eq _ _ _ _ _ _ _ _ _ hdis, ?_, ?_, ?_⟩
  · exact (List.sorted_insertionSort strLE _).filter _
  · exact (List.sorted_insertionSort strLE _).filter _
  · intro t ht
    rw [scan_sync_disabled_eq _ _ _ _ _ _ _ _ _ hdis] at ht
    rcases List.mem_append.mp ht with hm | hm
    · rcases List.mem_map.mp hm with ⟨k, _, hk⟩
      rw [← hk]
      simp [updateCopyTask]
    · rcases List.mem_append.mp hm with hm2 | hm2
      · rcases List.mem_map.mp hm2 with ⟨k, _, hk⟩
        rw [← hk]
        simp [syncBackTask]
      · rcases List.mem_map.mp hm2 with ⟨k, _, hk⟩
        rw [← hk]
        simp [syncBackTask]

/-- C6 witness: the sync output decomposition at a concrete pair of
snapshots with a destination-only file. -/
theorem scan_sync_order_witness :
    scanFromSnapshots "src" "dst" "" false
        [("a.txt", { path := "src/a.txt", info := { size := 1, modTime := 0 } })] []
        [("b.txt", { path := "dst/b.txt", info := { size := 2, modTime := 7 } })] []
        Mode.sync {} =
      (updateCopyKeys
          [("a.txt", { path := "src/a.txt", info := { size := 1, modTime := 0 } })]
          [("b.txt", { path := "dst/b.txt", info := { size := 2, modTime := 7 } })]).map
        (updateCopyTask "dst"
          [("a.txt", { path := "src/a.txt", info := { size := 1, modTime := 0 } })]) ++
      ((dstOnlyKeys "src" "" false
          [("a.txt", { path := "src/a.txt", info := { size := 1, modTime := 0 } })]
          [("b.txt", { path := "dst/b.txt", info := { size := 2, modTime := 7 } })]).map
        (syncBackTask "src" "" false
          [("b.txt", { path := "dst/b.txt", info := { size := 2, modTime := 7 } })]) ++
       (dstNewerKeys "src" "" false
          [("a.txt", { path := "src/a.txt", info := { size := 1, modTime := 0 } })]
          [("b.txt", { path := "dst/b.txt", info := { size := 2, modTime := 7 } })]).map
        (syncBackTask "src" "" false
          [("b.txt", { path := "dst/b.txt", info := { size := 2, modTime := 7 } })])) :=
  (scan_sync_order "src" "dst" "" false
    [("a.txt", { path := "src/a.txt", info := { size := 1, modTime := 0 } })] []
    [("b.txt", { path := "dst/b.txt", info := { size := 2, modTime := 7 } })] []
    {} (by decide)).1

/-! ## Claim C7 -/

theorem scan_mirror_split (cleanSrc cleanDst base : String) (includeDir : Bool)
    (srcFiles srcDirs dstFiles dstDirs : List (String × fileMeta)) (opts : Options) :
    scanFromSnapshots cleanSrc cleanDst base includeDir srcFiles srcDirs dstFiles dstDirs
        Mode.mirror opts =
      scanFromSnapshots cleanSrc cleanDst base includeDir srcFiles srcDirs dstFiles dstDirs
        Mode.update opts ++
      mirrorDeletes cleanDst dstFiles dstDirs srcFiles srcDirs := by
  unfold scanFromSnapshots
  simp [List.append_assoc]

/-- C7: in Mirror mode Scan appends the mirror deletions after the update
copies; the destination-only directory keys are deleted in descending
path-length order (pairwise, later keys are no longer than earlier ones),
and consequently a directory nested inside another to-be-deleted directory
has its Delete task emitted strictly before its parent's. -/
theorem mirror_dir_delete_order (cleanSrc cleanDst base : String) (includeDir : Bool)
    (srcFiles srcDirs dstFiles dstDirs : List (String × fileMeta)) (opts : Options) :
    (scanFromSnapshots cleanSrc cleanDst base includeDir srcFiles srcDirs dstFiles dstDirs
        Mode.mirror opts =
      scanFromSnapshots cleanSrc cleanDst base includeDir srcFiles srcDirs dstFiles dstDirs
        Mode.update opts ++
      mirrorDeletes cleanDst dstFiles dstDirs srcFiles srcDirs) ∧
    (mirrorDeletes cleanDst dstFiles dstDirs srcFiles srcDirs =
      (dstFiles.filter (fun p => (srcFiles.lookup p.1).isNone)).map
        (fun p => { action := Action.delete, dst := p.2.path : Task }) ++
      (sortedMissingDirKeys dstDirs srcDirs).map
        (fun rel => { action := Action.delete, dst := joinPath cleanDst rel : Task })) ∧
    List.Pairwise lenGE (sortedMissingDirKeys dstDirs srcDirs) ∧
    (∀ (i j : Nat) (hi : i < (sortedMissingDirKeys dstDirs srcDirs).length)
       (hj : j < (sortedMissingDirKeys dstDirs srcDirs).length) (r : String),
       (sortedMissingDirKeys dstDirs srcDirs).get ⟨j, hj⟩ =
         (sortedMissingDirKeys dstDirs srcDirs).get ⟨i, hi⟩ ++ "/" ++ r →
       j < i) := by
  refine ⟨scan_mirror_split _ _ _ _ _ _ _ _ _, rfl, ?_, ?_⟩
  · exact List.sorted_insertionSort lenGE _
  · intro i j hi hj r heq
    have hlen := congrArg String.length heq
    rw [String.length_append, String.length_append] at hlen
    have hlen1 : ("/" : String).length = 1 := rfl
    rw [hlen1] at hlen
    by_contra hcon
    have hij : i ≤ j := by omega
    rcases Nat.eq_or_lt_of_le hij with heqij | hlt
    · subst heqij
      have hsame : (sortedMissingDirKeys dstDirs srcDirs).get ⟨i, hj⟩ =
          (sortedMissingDirKeys dstDirs srcDirs).get ⟨i, hi⟩ := rfl
      rw [hsame] at hlen
      omega
    · have hpw : List.Pairwise lenGE (sortedMissingDirKeys dstDirs srcDirs) :=
        List.sorted_insertionSort lenGE _
      have hle := List.pairwise_iff_get.mp hpw ⟨i, hi⟩ ⟨j, hj⟩ hlt
      unfold lenGE at hle
      omega

/-- C7 witness: for destination-only directories a/b and a/b/c the sorted
delete order is a/b/c before a/b, and the nested-pair conclusion applies
with child a/b/c at index 0 and parent a/b at index 1. -/
theorem mirror_dir_delete_order_witness :
    sortedMissingDirKeys
        [("a/b", { path := "dst/a/b", info := { size := 0, modTime := 0 } }),
         ("a/b/c", { path := "dst/a/b/c", info := { size := 0, modTime := 0 } })] [] =
      ["a/b/c", "a/b"] ∧
    (0 : Nat) < 1 :=
  ⟨by decide,
   (mirror_dir_delete_order "src" "dst" "" false [] []
     []
     [("a/b", { path := "dst/a/b", info := { size := 0, modTime := 0 } }),
      ("a/b/c", { path := "dst/a/b/c", info := { size := 0, modTime := 0 } })]
     {}).2.2.2 1 0 (by decide) (by decide) "c" (by decide)⟩

end Syncopa
